import Mathlib

/-!
# Shallow embedding of the ruuvi-api history/aggregation/retention core

This file embeds, in Lean 4, the data model and operations of the ruuvi-api
repository's history subsystem:

* `src/models/historyModel.ts` — `saveHistory`, `getHistory`,
  `getMinOrMaxValueByTag`, `getSensorTrendByTag`, `cleanOldHistory`;
* `src/models/aggregatedHistoryModel.ts` — `aggregateHistory`,
  `saveAggregatedHistory`, `getAggregatedHistory`, `isDateAggregated`;
* `src/tasks/aggregateHistoryTask.ts` — `run` (embedded as `aggregateTaskRun`);
* `src/tasks/cleanHistoryTask.ts` — `run` (embedded as `cleanTaskRun`);
* `src/models/tagModel.ts` — `ensureTag`.

Modelling conventions:

* Instants (JS `Date` values) are integers (`Millis`, milliseconds since the
  epoch).  A `Date` that may be absent or not a real `Date` object is
  `Option Millis` (`none` = not a `Date` object).  `setHours(0,0,0,0)` and
  `addDays(_, 1)` are modelled in a fixed-offset calendar (`startOfDay`,
  adding `dayMs`); DST shifts are not modelled.
* JS numbers carrying sensor values are rationals (`ℚ`); `Number(x.toFixed(n))`
  is decimal rounding (`round2` / `round1`).
* The database tables are in-memory lists (`List Reading`,
  `List AggRow`, `List Tag`); an SQL `insert` is an append, row ids are
  positions.  SQL `MIN`/`MAX` of an empty set is `NULL`, hence `Option ℚ`.
* JS truthiness: a numeric id is falsy exactly when it is `0` (ids are `Nat`,
  `0` = absent/falsy); an optional filter is `Option _` with `none` = `null`.
* `async` functions that can reject are `Except String _`;
  `Promise.all` over state-writing units is a fold that applies every unit's
  writes and records in a `Bool` flag whether the combined promise resolved
  (`true`) or rejected (`false`): with `Promise.all`, every unit still runs
  even when a sibling rejects, but the rejection reaches the awaiter.
-/

abbrev Millis := Int

/-- One day in milliseconds (fixed-offset calendar). -/
def dayMs : Millis := 86400000

/-- `date.setHours(0, 0, 0, 0)`: truncate an instant to its day's midnight. -/
def startOfDay (t : Millis) : Millis := dayMs * (t / dayMs)

/-- A row of the `history` table (a raw reading).  `voltage` is not a column:
`saveHistory` only uses it to derive `battery_low`. -/
structure Reading where
  tag_id : Nat
  datetime : Millis
  temperature : ℚ
  humidity : ℚ
  battery_low : Bool
deriving DecidableEq, Repr

/-- A row of the `history_aggregated` table. -/
structure AggRow where
  tag_id : Nat
  date : Millis
  temperature_min : Option ℚ
  temperature_max : Option ℚ
  humidity_min : Option ℚ
  humidity_max : Option ℚ
deriving DecidableEq, Repr

/-- A row of the `tag` table.  `id = 0` never occurs in the database
(auto-increment starts at 1) but the model does not forbid it; theorems add
the hypothesis where it matters. -/
structure Tag where
  id : Nat
  ruuvi_id : String
  name : String
deriving DecidableEq, Repr

/-- `Number(q.toFixed(2))`: round to 2 decimal places (ties go to the larger
value, as `toFixed` picks the larger candidate). -/
def round2 (q : ℚ) : ℚ := (⌊q * 100 + 1 / 2⌋ : ℤ) / 100

/-- `Number(q.toFixed(1))`: round to 1 decimal place (ties to the larger
value). -/
def round1 (q : ℚ) : ℚ := (⌊q * 10 + 1 / 2⌋ : ℤ) / 10

/-- `SENSORS` from `historyModel.ts`. -/
def SENSORS : List String := ["temperature", "humidity"]

/-- `isValidSensorName` from `historyModel.ts`. -/
def isValidSensorName (sensor_name : String) : Bool := SENSORS.contains sensor_name

/-- `row[sensor]`: dynamic field access for a valid sensor name. -/
def sensorValue (sensor : String) (r : Reading) : ℚ :=
  if sensor = "temperature" then r.temperature else r.humidity

/-- Insert into a list kept in descending `key` order (used to model SQL
`ORDER BY _ DESC`). -/
def insertDescBy {α : Type} (key : α → Millis) (x : α) : List α → List α
  | [] => [x]
  | y :: ys => if key y < key x then x :: y :: ys else y :: insertDescBy key x ys

/-- Sort a list in descending `key` order (`ORDER BY _ DESC`). -/
def sortDescBy {α : Type} (key : α → Millis) : List α → List α
  | [] => []
  | x :: xs => insertDescBy key x (sortDescBy key xs)

/-- `tag.id = X` after `leftJoin('tag', 'tag.id', 'tag_id')`: true iff the
reading's tag exists in the `tag` table (else the joined `tag.id` is `NULL`)
and equals `X`. -/
def tagExists (tags : List Tag) (id : Nat) : Bool := tags.any (fun t => t.id == id)

/-- `getHistory` from `historyModel.ts`: filter (`datetime > date_start`,
`datetime < date_end`, joined `tag.id = tag_id`), order newest first, apply
`limit`.  JS truthiness: `tag_id = some 0` and `limit = some 0` are falsy, so
those filters are skipped. -/
def getHistory (date_start date_end : Option Millis) (tag_id : Option Nat)
    (limit : Option Nat) (tags : List Tag) (store : List Reading) : List Reading :=
  let filtered := store.filter (fun r =>
    (match date_start with | some s => s < r.datetime | none => true) &&
    (match date_end with | some e => r.datetime < e | none => true) &&
    (match tag_id with
     | some t => if t = 0 then true else (r.tag_id == t && tagExists tags r.tag_id)
     | none => true))
  let sorted := sortDescBy (fun r => r.datetime) filtered
  match limit with
  | some l => if l = 0 then sorted else sorted.take l
  | none => sorted

/-- `getMinOrMaxValueByTag` from `historyModel.ts`.  `whereBetween` is
inclusive at both bounds; the SQL aggregate returns `NULL` (`none`) when no
row matches.  The two `Date` arguments are required by type, so the
"missing bound" check of the source cannot fire in the model. -/
def getMinOrMaxValueByTag (type : String) (tag_id : Nat) (sensor : String)
    (date_start date_end : Millis) (store : List Reading) : Except String (Option ℚ) :=
  if ¬ (type = "min" ∨ type = "max") then .error "Type needs to be min or max."
  else if date_end < date_start then .error "Start date cannot be before end date."
  else if tag_id = 0 then .error "Missing tag ID."
  else if sensor = "" then .error "Missing sensor name."
  else if ¬ isValidSensorName sensor then .error ("Not a valid sensor name: " ++ sensor)
  else
    let values := (store.filter (fun r =>
      r.tag_id == tag_id && date_start ≤ r.datetime && r.datetime ≤ date_end)).map
      (sensorValue sensor)
    .ok (if type = "min" then values.min? else values.max?)

/-- `getSensorTrendByTag` from `historyModel.ts`: 3 most recent readings
(`getHistory` with `limit: 3`), values rounded to 1 decimal; `1` when
strictly increasing newest-to-oldest, `-1` when strictly decreasing, else
`0`.  The destructuring `const [first, second, third] = ...` is the match;
its fallthrough branch is unreachable (the length guard has passed). -/
def getSensorTrendByTag (tag_id : Nat) (sensor : String)
    (tags : List Tag) (store : List Reading) : Except String Int :=
  if tag_id = 0 then .error "Missing tag ID."
  else if sensor = "" then .error "Missing sensor name."
  else if ¬ isValidSensorName sensor then .error ("Not a valid sensor name: " ++ sensor)
  else
    let sensor_values := getHistory none none (some tag_id) (some 3) tags store
    if sensor_values.length < 3 then .ok 0
    else
      match sensor_values.map (fun r => round1 (sensorValue sensor r)) with
      | first :: second :: third :: _ =>
          if first > second ∧ second > third then .ok 1
          else if first < second ∧ second < third then .ok (-1)
          else .ok 0
      | _ => .ok 0

/-- `ensureTag` from `tagModel.ts`: look a tag up by its Ruuvi MAC, creating
it when absent.  The generated id is one past the largest existing id
(auto-increment). -/
def ensureTag (ruuvi_id : String) (name : String) (tags : List Tag) :
    Except String (List Tag × Tag) :=
  if ruuvi_id = "" then .error "Missing Ruuvi ID."
  else match tags.find? (fun t => t.ruuvi_id == ruuvi_id) with
    | some tag => .ok (tags, tag)
    | none =>
        let tag_id := (tags.map Tag.id).foldl max 0 + 1
        let tag : Tag := { id := tag_id, ruuvi_id := ruuvi_id, name := name }
        .ok (tags ++ [tag], tag)

/-- The argument record of `saveHistory` (`History` in `types.ts`).
`tag_id = 0` models an absent/falsy tag id, `ruuvi_id = ""` an absent/falsy
MAC, `datetime = none` a value that is not a `Date` object, `voltage = none`
an absent voltage (`some 0` is present but falsy). -/
structure HistoryInput where
  tag_id : Nat
  ruuvi_id : String
  datetime : Option Millis
  temperature : ℚ
  humidity : ℚ
  voltage : Option ℚ
  battery_low : Bool
deriving DecidableEq, Repr

/-- `saveHistory` from `historyModel.ts`: validate, resolve the tag id via
`ensureTag` when only a Ruuvi MAC was given, derive `battery_low` from a
truthy voltage (hard-coded threshold `2`, overriding the passed flag), round
the sensor values to 2 decimals, insert.  Returns the updated `tag` table,
the updated `history` table and the new row id. -/
def saveHistory (input : HistoryInput) (tags : List Tag) (store : List Reading) :
    Except String (List Tag × List Reading × Nat) :=
  if input.tag_id = 0 ∧ input.ruuvi_id = "" then
    .error "Need either tag ID or Ruuvi ID."
  else if input.datetime.isNone then
    .error "Datetime isn't a date object."
  else
    match (if input.tag_id = 0 then
             match ensureTag input.ruuvi_id "" tags with
             | .error e => .error e
             | .ok (tags', tag) => .ok (tags', tag.id)
           else .ok (tags, input.tag_id) : Except String (List Tag × Nat)) with
    | .error e => .error e
    | .ok (tags', tag_id) =>
        let battery_low := match input.voltage with
          | some v => if v ≠ 0 then decide (v < 2) else input.battery_low
          | none => input.battery_low
        let row : Reading :=
          { tag_id := tag_id, datetime := input.datetime.getD 0,
            temperature := round2 input.temperature, humidity := round2 input.humidity,
            battery_low := battery_low }
        .ok (tags', store ++ [row], store.length + 1)

/-- `cleanOldHistory` from `historyModel.ts`: reject a cutoff that is not a
`Date` object or lies in the future, else delete every reading with
`datetime` strictly before the cutoff and return the number removed. -/
def cleanOldHistory (delete_older_than_days : Option Millis) (now : Millis)
    (store : List Reading) : Except String (List Reading × Nat) :=
  match delete_older_than_days with
  | none => .error "Clean older than date isn't a date object."
  | some cutoff =>
      if now < cutoff then .error "Date cannot be in the future."
      else
        let kept := store.filter (fun r => ¬ r.datetime < cutoff)
        let removed := (store.filter (fun r => r.datetime < cutoff)).length
        .ok (kept, removed)

/-- `DAYS_TO_CLEAN` from `cleanHistoryTask.ts`. -/
def DAYS_TO_CLEAN : Int := 7

/-- `run` from `cleanHistoryTask.ts` (the Retention Task): delete readings
older than 7 days and return `true`.  The cutoff `subDays(new Date(), 7)` is
`now - 7 * dayMs`. -/
def cleanTaskRun (now : Millis) (store : List Reading) : List Reading × Bool :=
  match cleanOldHistory (some (now - DAYS_TO_CLEAN * dayMs)) now store with
  | .ok (store', _) => (store', true)
  | .error _ => (store, false)

/-- The `where` clauses of `getAggregatedHistory` on one row:
`where('date', date)` when `date` is truthy, `where('tag_id', tag_id)` when
`tag_id` is truthy (`some 0` is falsy, hence unfiltered). -/
def aggMatches (tag_id : Option Nat) (date : Option Millis) (r : AggRow) : Bool :=
  (match date with | some d => r.date == d | none => true) &&
  (match tag_id with | some t => if t = 0 then true else r.tag_id == t | none => true)

/-- The row selection of `getAggregatedHistory` from
`aggregatedHistoryModel.ts`: filter, order by `date` descending, limit when
`limit` is truthy.  The `leftJoin` with `tag` only adds the `tag_name`
projection and filters nothing, so it is not modelled. -/
def getAggregatedHistoryRaw (tag_id : Option Nat) (date : Option Millis)
    (limit : Option Nat) (aggs : List AggRow) : List AggRow :=
  let sorted := sortDescBy (fun r => r.date) (aggs.filter (aggMatches tag_id date))
  match limit with
  | some l => if l = 0 then sorted else sorted.take l
  | none => sorted

/-- A min/max pair as produced by the formatting step of
`getAggregatedHistory` (the `Sensor` shape of `types.ts`). -/
structure MinMax where
  min : Option ℚ
  max : Option ℚ
deriving DecidableEq, Repr

/-- The projection returned by `getAggregatedHistory` after its formatting
step: the `_min`/`_max` columns are deleted and replaced by `temperature` /
`humidity` objects; the date is reduced to day precision
(`format(date, 'yyyy-MM-dd')`). -/
structure FormattedAggRow where
  tag_id : Nat
  date : Millis
  temperature : MinMax
  humidity : MinMax
deriving DecidableEq, Repr

/-- The formatting step of `getAggregatedHistory`: as in the source, both the
`min` and the `max` field of each sensor object are filled from the `_min`
column, and the `_max` columns are deleted. -/
def formatAggRow (r : AggRow) : FormattedAggRow :=
  { tag_id := r.tag_id
    date := startOfDay r.date
    temperature := { min := r.temperature_min, max := r.temperature_min }
    humidity := { min := r.humidity_min, max := r.humidity_min } }

/-- `getAggregatedHistory` from `aggregatedHistoryModel.ts`: filter, order,
limit, then format every row. -/
def getAggregatedHistory (tag_id : Option Nat) (date : Option Millis)
    (limit : Option Nat) (aggs : List AggRow) : List FormattedAggRow :=
  (getAggregatedHistoryRaw tag_id date limit aggs).map formatAggRow

/-- `isDateAggregated` from `aggregatedHistoryModel.ts`: true iff
`getAggregatedHistory` returns at least one row for these filters. -/
def isDateAggregated (tag_id : Option Nat) (date : Millis) (aggs : List AggRow) : Bool :=
  (getAggregatedHistory tag_id (some date) none aggs).length != 0

/-- `saveAggregatedHistory` from `aggregatedHistoryModel.ts`: reject a falsy
tag id, re-check `isDateAggregated` for this `(tag_id, date)` at persist
time and reject on conflict, else insert.  The `date instanceof Date` check
cannot fire in the model (the date is an instant by type). -/
def saveAggregatedHistory (a : AggRow) (aggs : List AggRow) :
    Except String (List AggRow × Nat) :=
  if a.tag_id = 0 then .error "Missing tag ID."
  else if isDateAggregated (some a.tag_id) a.date aggs then
    .error "Aggregated data already exists for this tag and date."
  else .ok (aggs ++ [a], aggs.length + 1)

/-- The body of the `tags.map` of `aggregateHistory`: the four
`getMinOrMaxValueByTag` calls for one tag over the day's window.  The
`date` field of the produced row is the raw `date` argument of
`aggregateHistory`, not the window start. -/
def computeAggRow (store : List Reading) (date date_start date_end : Millis)
    (tag : Tag) : Except String AggRow :=
  match getMinOrMaxValueByTag "min" tag.id "temperature" date_start date_end store with
  | .error e => .error e
  | .ok temperature_min =>
    match getMinOrMaxValueByTag "max" tag.id "temperature" date_start date_end store with
    | .error e => .error e
    | .ok temperature_max =>
      match getMinOrMaxValueByTag "min" tag.id "humidity" date_start date_end store with
      | .error e => .error e
      | .ok humidity_min =>
        match getMinOrMaxValueByTag "max" tag.id "humidity" date_start date_end store with
        | .error e => .error e
        | .ok humidity_max =>
            .ok { tag_id := tag.id, date := date, temperature_min := temperature_min,
                  temperature_max := temperature_max, humidity_min := humidity_min,
                  humidity_max := humidity_max }

/-- The first `Promise.all` of `aggregateHistory` (`tags.map ...`): compute
the candidate row of every tag; the combined promise rejects if any
per-tag computation rejects (and no save runs in that case, since the saves
are awaited after this). -/
def computeAggRows (store : List Reading) (date date_start date_end : Millis) :
    List Tag → Except String (List AggRow)
  | [] => .ok []
  | tag :: rest =>
      match computeAggRow store date date_start date_end tag with
      | .error e => .error e
      | .ok a =>
          match computeAggRows store date date_start date_end rest with
          | .error e => .error e
          | .ok others => .ok (a :: others)

/-- The all-`NULL` filter of `aggregateHistory`: keep a candidate row iff
any of its four values is non-`NULL`. -/
def hasAnyValue (a : AggRow) : Bool :=
  a.temperature_min.isSome || a.temperature_max.isSome ||
  a.humidity_min.isSome || a.humidity_max.isSome

/-- The final `Promise.all` of `aggregateHistory`: attempt
`saveAggregatedHistory` for every kept row.  Every save runs (its write
applied on success); the `Bool` is `false` when any save rejected, which
makes the combined promise reject. -/
def saveAllAggRows : List AggRow → List AggRow → List AggRow × Bool
  | [], aggs => (aggs, true)
  | row :: rest, aggs =>
      match saveAggregatedHistory row aggs with
      | .ok (aggs', _) => saveAllAggRows rest aggs'
      | .error _ => ((saveAllAggRows rest aggs).1, false)

/-- `aggregateHistory` from `aggregatedHistoryModel.ts`: compute the day's
window (`startOfDay date` to `startOfDay (date + 1 day)` boundaries),
compute one candidate row per tag, drop rows whose four values are all
`NULL`, save the rest.  `getTags()` returns an array (truthy even when
empty), so the "no tags" check of the source never fires.  A rejection
while computing the min/max values rejects before any save runs. -/
def aggregateHistory (tags : List Tag) (store : List Reading) (date : Millis)
    (aggs : List AggRow) : List AggRow × Bool :=
  match computeAggRows store date (startOfDay date) (startOfDay (date + dayMs)) tags with
  | .error _ => (aggs, false)
  | .ok rows => saveAllAggRows (rows.filter hasAnyValue) aggs

/-- The body of the `reduce` of the Aggregation Task's `run`, with the
accumulator (`dates`) explicit: normalise each reading's datetime to
midnight and push it unless already present. -/
def datesWithDataAux : List Reading → List Millis → List Millis
  | [], dates => dates
  | r :: rest, dates =>
      datesWithDataAux rest
        (if dates.contains (startOfDay r.datetime) then dates
         else dates ++ [startOfDay r.datetime])

/-- The `reduce` of the Aggregation Task's `run`: the distinct days (each
reading's datetime normalised to midnight, deduplicated, first occurrence
kept) present in the fetched history. -/
def datesWithData (history : List Reading) : List Millis :=
  datesWithDataAux history []

/-- The per-day `Promise.all` of the Aggregation Task's `run`: for each
candidate day, `aggregateHistory` is invoked when `isDateAggregated({date})`
is TRUE (as written in the source — the gate is inverted relative to the
source's own comment).  All days run; the `Bool` records whether the
combined promise resolved. -/
def runDays (tags : List Tag) (store : List Reading) :
    List Millis → List AggRow → List AggRow × Bool
  | [], aggs => (aggs, true)
  | date :: rest, aggs =>
      if isDateAggregated none date aggs then
        let step := aggregateHistory tags store date aggs
        let next := runDays tags store rest step.1
        (next.1, step.2 && next.2)
      else runDays tags store rest aggs

/-- `run` from `aggregateHistoryTask.ts` (the Aggregation Task): fetch all
readings strictly before today's midnight, reduce them to their distinct
days, and process each day.  The returned `Bool` is `true` when the run
resolved (with value `true`) and `false` when it rejected. -/
def aggregateTaskRun (now : Millis) (tags : List Tag) (store : List Reading)
    (aggs : List AggRow) : List AggRow × Bool :=
  let date_end := startOfDay now
  let history := getHistory none (some date_end) none none tags store
  let dates_with_data := datesWithData history
  runDays tags store dates_with_data aggs

/-- A row the program would refuse to save again: its tag id is falsy, or a
row with its `(tag_id, date)` already exists. -/
def coveredSave (a : AggRow) (aggs : List AggRow) : Prop :=
  a.tag_id = 0 ∨ isDateAggregated (some a.tag_id) a.date aggs = true

/-- All the per-tag rows `aggregateHistory date` would try to save are
already refused against `aggs` (or the computation itself rejects): running
`aggregateHistory date` from `aggs` cannot change the store. -/
def dayDone (tags : List Tag) (store : List Reading) (date : Millis)
    (aggs : List AggRow) : Prop :=
  match computeAggRows store date (startOfDay date) (startOfDay (date + dayMs)) tags with
  | .error _ => True
  | .ok rows => ∀ a ∈ rows.filter hasAnyValue, coveredSave a aggs

/-! ## Concrete fixtures (used by witnesses, counterexamples, failing inputs) -/

/-- A first sample tag. -/
def tagA : Tag := { id := 1, ruuvi_id := "11:22:33:44:55:66", name := "Tag 1" }

/-- A second sample tag. -/
def tagB : Tag := { id := 2, ruuvi_id := "22:33:44:55:66:77", name := "Tag 2" }

/-- A reading of `tagA` during day 1 of the epoch. -/
def readingA : Reading :=
  { tag_id := 1, datetime := dayMs + 100, temperature := 20, humidity := 55,
    battery_low := false }

/-- A reading of `tagB` during day 1 of the epoch. -/
def readingB : Reading :=
  { tag_id := 2, datetime := dayMs + 200, temperature := 25, humidity := 60,
    battery_low := false }

/-- A pre-existing aggregate row for `(tagA, day 1)`. -/
def aggRowA : AggRow :=
  { tag_id := 1, date := dayMs, temperature_min := some 1, temperature_max := some 2,
    humidity_min := some 3, humidity_max := some 4 }

/-- The aggregate row `aggregateHistory` computes for `tagB` on day 1 from
`readingB`. -/
def aggRowB : AggRow :=
  { tag_id := 2, date := dayMs, temperature_min := some 25, temperature_max := some 25,
    humidity_min := some 60, humidity_max := some 60 }

/-- A sample "current time": early on day 2 of the epoch. -/
def sampleNow : Millis := 2 * dayMs + 500

/-- A reading 15 days older than the retention sample time `20 * dayMs`. -/
def oldReading : Reading :=
  { tag_id := 1, datetime := 5 * dayMs, temperature := 15, humidity := 50,
    battery_low := false }

/-- A reading 1 day older than the retention sample time `20 * dayMs`. -/
def recentReading : Reading :=
  { tag_id := 1, datetime := 19 * dayMs, temperature := 25, humidity := 60,
    battery_low := false }

/-- Newest of three sample readings for the trend fixture. -/
def trendR1 : Reading :=
  { tag_id := 1, datetime := 300, temperature := 25, humidity := 50, battery_low := false }

/-- Middle of three sample readings for the trend fixture. -/
def trendR2 : Reading :=
  { tag_id := 1, datetime := 200, temperature := 20, humidity := 50, battery_low := false }

/-- Oldest of three sample readings for the trend fixture. -/
def trendR3 : Reading :=
  { tag_id := 1, datetime := 100, temperature := 15, humidity := 50, battery_low := false }

/-- A valid `saveHistory` argument with unrounded sensor values. -/
def inputA : HistoryInput :=
  { tag_id := 1, ruuvi_id := "", datetime := some (dayMs + 100),
    temperature := 20123 / 1000, humidity := 55987 / 1000, voltage := none,
    battery_low := false }

/-- A `saveHistory` argument whose voltage (2.4 V) is below the documented
default low-battery threshold (2.5 V) but above the code's hard-coded 2 V. -/
def lowVoltageInput : HistoryInput :=
  { tag_id := 1, ruuvi_id := "", datetime := some (dayMs + 100), temperature := 20,
    humidity := 55, voltage := some (12 / 5), battery_low := true }

/-- The row `saveHistory` inserts once the tag id is resolved: datetime as
passed, sensor values rounded to 2 decimals, `battery_low` derived from a
truthy voltage by `voltage < 2` (overriding the passed flag). -/
def savedReading (tag_id : Nat) (input : HistoryInput) : Reading :=
  { tag_id := tag_id, datetime := input.datetime.getD 0,
    temperature := round2 input.temperature, humidity := round2 input.humidity,
    battery_low := match input.voltage with
      | some v => if v ≠ 0 then decide (v < 2) else input.battery_low
      | none => input.battery_low }

/-! ## Basic lemmas about the embedded operations -/

theorem mem_insertDescBy {α : Type} (key : α → Millis) (x : α) (l : List α) (a : α) :
    a ∈ insertDescBy key x l ↔ a = x ∨ a ∈ l := by
  induction l with
  | nil => simp [insertDescBy]
  | cons y ys ih =>
      simp only [insertDescBy]
      split
      · simp
      · simp [ih]
        tauto

theorem mem_sortDescBy {α : Type} (key : α → Millis) (l : List α) (a : α) :
    a ∈ sortDescBy key l ↔ a ∈ l := by
  induction l with
  | nil => simp [sortDescBy]
  | cons x xs ih => simp [sortDescBy, mem_insertDescBy, ih]

theorem length_insertDescBy {α : Type} (key : α → Millis) (x : α) (l : List α) :
    (insertDescBy key x l).length = l.length + 1 := by
  induction l with
  | nil => simp [insertDescBy]
  | cons y ys ih =>
      simp only [insertDescBy]
      split <;> simp [ih]

theorem length_sortDescBy {α : Type} (key : α → Millis) (l : List α) :
    (sortDescBy key l).length = l.length := by
  induction l with
  | nil => rfl
  | cons x xs ih => simp [sortDescBy, length_insertDescBy, ih]

theorem startOfDay_le (t : Millis) : startOfDay t ≤ t := by
  show (86400000 : Int) * (t / 86400000) ≤ t
  omega

theorem isDateAggregated_iff (tag_id : Option Nat) (date : Millis) (aggs : List AggRow) :
    isDateAggregated tag_id date aggs = true ↔
      ∃ r ∈ aggs, aggMatches tag_id (some date) r = true := by
  unfold isDateAggregated getAggregatedHistory getAggregatedHistoryRaw
  simp only [List.length_map, bne_iff_ne, ne_eq]
  rw [length_sortDescBy]
  constructor
  · intro h
    rcases List.exists_mem_of_length_pos (Nat.pos_of_ne_zero h) with ⟨r, hr⟩
    exact ⟨r, (List.mem_filter.mp hr).1, (List.mem_filter.mp hr).2⟩
  · rintro ⟨r, hr, hm⟩
    intro hlen
    have : r ∈ aggs.filter (aggMatches tag_id (some date)) := List.mem_filter.mpr ⟨hr, hm⟩
    have := List.length_pos.mpr (List.ne_nil_of_mem this)
    omega

theorem isDateAggregated_none_iff (date : Millis) (aggs : List AggRow) :
    isDateAggregated none date aggs = true ↔ ∃ r ∈ aggs, r.date = date := by
  rw [isDateAggregated_iff]
  simp [aggMatches]

theorem isDateAggregated_some_iff (t : Nat) (ht : t ≠ 0) (date : Millis) (aggs : List AggRow) :
    isDateAggregated (some t) date aggs = true ↔
      ∃ r ∈ aggs, r.date = date ∧ r.tag_id = t := by
  rw [isDateAggregated_iff]
  simp [aggMatches, ht]

theorem isDateAggregated_mono (tag_id : Option Nat) (date : Millis)
    {aggs aggs' : List AggRow} (hsub : aggs ⊆ aggs')
    (h : isDateAggregated tag_id date aggs = true) :
    isDateAggregated tag_id date aggs' = true := by
  rw [isDateAggregated_iff] at h ⊢
  rcases h with ⟨r, hr, hm⟩
  exact ⟨r, hsub hr, hm⟩

/-! ## Structural lemmas about aggregate persistence -/

theorem saveAggregatedHistory_ok {a : AggRow} {aggs aggs' : List AggRow} {id : Nat}
    (h : saveAggregatedHistory a aggs = .ok (aggs', id)) : aggs' = aggs ++ [a] := by
  unfold saveAggregatedHistory at h
  split at h
  · simp at h
  · split at h
    · simp at h
    · simp at h
      exact h.1.symm

theorem coveredSave_mono {a : AggRow} {aggs aggs' : List AggRow}
    (hsub : aggs ⊆ aggs') (h : coveredSave a aggs) : coveredSave a aggs' := by
  rcases h with h | h
  · exact Or.inl h
  · exact Or.inr (isDateAggregated_mono _ _ hsub h)

theorem coveredSave_self (a : AggRow) (aggs : List AggRow) :
    coveredSave a (aggs ++ [a]) := by
  by_cases h : a.tag_id = 0
  · exact Or.inl h
  · refine Or.inr ((isDateAggregated_some_iff a.tag_id h a.date _).mpr ?_)
    exact ⟨a, by simp, rfl, rfl⟩

theorem saveAggregatedHistory_error_covered {a : AggRow} {aggs : List AggRow} {msg : String}
    (h : saveAggregatedHistory a aggs = .error msg) : coveredSave a aggs := by
  unfold saveAggregatedHistory at h
  split at h
  · exact Or.inl (by assumption)
  · split at h
    · exact Or.inr (by assumption)
    · simp at h

theorem saveAggregatedHistory_covered_error {a : AggRow} {aggs : List AggRow}
    (h : coveredSave a aggs) : ∃ msg, saveAggregatedHistory a aggs = .error msg := by
  unfold saveAggregatedHistory
  rcases h with h | h
  · exact ⟨"Missing tag ID.", by simp [h]⟩
  · by_cases h0 : a.tag_id = 0
    · exact ⟨"Missing tag ID.", by simp [h0]⟩
    · exact ⟨"Aggregated data already exists for this tag and date.", by simp [h0, h]⟩

theorem saveAllAggRows_prefix (rows : List AggRow) (aggs : List AggRow) :
    ∃ new, (saveAllAggRows rows aggs).1 = aggs ++ new ∧ ∀ r ∈ new, r ∈ rows := by
  induction rows generalizing aggs with
  | nil => exact ⟨[], by simp [saveAllAggRows]⟩
  | cons row rest ih =>
      cases hsave : saveAggregatedHistory row aggs with
      | ok p =>
          obtain ⟨aggs1, id⟩ := p
          have hp := saveAggregatedHistory_ok hsave
          subst hp
          obtain ⟨new, hnew, hmem⟩ := ih (aggs ++ [row])
          refine ⟨row :: new, ?_, ?_⟩
          · simp only [saveAllAggRows, hsave, hnew]
            simp
          · intro r hr
            rcases List.mem_cons.mp hr with h | h
            · simp [h]
            · exact List.mem_cons_of_mem _ (hmem r h)
      | error e =>
          obtain ⟨new, hnew, hmem⟩ := ih aggs
          refine ⟨new, ?_, fun r hr => List.mem_cons_of_mem _ (hmem r hr)⟩
          simp only [saveAllAggRows, hsave]
          exact hnew

theorem saveAllAggRows_subset (rows : List AggRow) (aggs : List AggRow) :
    aggs ⊆ (saveAllAggRows rows aggs).1 := by
  obtain ⟨new, hnew, _⟩ := saveAllAggRows_prefix rows aggs
  rw [hnew]
  exact List.subset_append_left _ _

theorem saveAllAggRows_covers (rows : List AggRow) (aggs : List AggRow) :
    ∀ a ∈ rows, coveredSave a (saveAllAggRows rows aggs).1 := by
  induction rows generalizing aggs with
  | nil => simp
  | cons row rest ih =>
      intro a ha
      cases hsave : saveAggregatedHistory row aggs with
      | ok p =>
          obtain ⟨aggs1, id⟩ := p
          have hp := saveAggregatedHistory_ok hsave
          subst hp
          have hres : (saveAllAggRows (row :: rest) aggs).1
              = (saveAllAggRows rest (aggs ++ [row])).1 := by
            simp only [saveAllAggRows, hsave]
          rcases List.mem_cons.mp ha with h | h
          · subst h
            rw [hres]
            exact coveredSave_mono (saveAllAggRows_subset _ _) (coveredSave_self a aggs)
          · rw [hres]
            exact ih (aggs ++ [row]) a h
      | error e =>
          have hres : (saveAllAggRows (row :: rest) aggs).1
              = (saveAllAggRows rest aggs).1 := by
            simp only [saveAllAggRows, hsave]
          rcases List.mem_cons.mp ha with h | h
          · subst h
            rw [hres]
            exact coveredSave_mono (saveAllAggRows_subset _ _)
              (saveAggregatedHistory_error_covered hsave)
          · rw [hres]
            exact ih aggs a h

theorem saveAllAggRows_noop {rows aggs : List AggRow}
    (h : ∀ a ∈ rows, coveredSave a aggs) : (saveAllAggRows rows aggs).1 = aggs := by
  induction rows with
  | nil => rfl
  | cons row rest ih =>
      obtain ⟨msg, hmsg⟩ := saveAggregatedHistory_covered_error (h row (by simp))
      have : (saveAllAggRows (row :: rest) aggs).1 = (saveAllAggRows rest aggs).1 := by
        simp only [saveAllAggRows, hmsg]
      rw [this]
      exact ih (fun a ha => h a (List.mem_cons_of_mem _ ha))

/-! ## Lemmas about the per-day computation and the task fold -/

theorem computeAggRow_date {store : List Reading} {date ds de : Millis} {tag : Tag}
    {a : AggRow} (h : computeAggRow store date ds de tag = .ok a) : a.date = date := by
  unfold computeAggRow at h
  cases h1 : getMinOrMaxValueByTag "min" tag.id "temperature" ds de store with
  | error e => rw [h1] at h; simp at h
  | ok v1 =>
  rw [h1] at h
  cases h2 : getMinOrMaxValueByTag "max" tag.id "temperature" ds de store with
  | error e => rw [h2] at h; simp at h
  | ok v2 =>
  rw [h2] at h
  cases h3 : getMinOrMaxValueByTag "min" tag.id "humidity" ds de store with
  | error e => rw [h3] at h; simp at h
  | ok v3 =>
  rw [h3] at h
  cases h4 : getMinOrMaxValueByTag "max" tag.id "humidity" ds de store with
  | error e => rw [h4] at h; simp at h
  | ok v4 =>
  rw [h4] at h
  simp only [Except.ok.injEq] at h
  subst h
  rfl

theorem computeAggRows_date {store : List Reading} {date ds de : Millis}
    {tags : List Tag} {rows : List AggRow}
    (h : computeAggRows store date ds de tags = .ok rows) :
    ∀ a ∈ rows, a.date = date := by
  induction tags generalizing rows with
  | nil =>
      unfold computeAggRows at h
      simp only [Except.ok.injEq] at h
      subst h
      simp
  | cons tag rest ih =>
      unfold computeAggRows at h
      cases h1 : computeAggRow store date ds de tag with
      | error e => rw [h1] at h; simp at h
      | ok a0 =>
      rw [h1] at h
      cases h2 : computeAggRows store date ds de rest with
      | error e => rw [h2] at h; simp at h
      | ok others =>
      rw [h2] at h
      simp only [Except.ok.injEq] at h
      subst h
      intro a ha
      rcases List.mem_cons.mp ha with h3 | h3
      · subst h3
        exact computeAggRow_date h1
      · exact ih h2 a h3

theorem dayDone_mono {tags : List Tag} {store : List Reading} {date : Millis}
    {aggs aggs' : List AggRow} (hsub : aggs ⊆ aggs')
    (h : dayDone tags store date aggs) : dayDone tags store date aggs' := by
  unfold dayDone at h ⊢
  cases hcomp : computeAggRows store date (startOfDay date) (startOfDay (date + dayMs)) tags with
  | error e => trivial
  | ok rows =>
      have h' : ∀ a ∈ rows.filter hasAnyValue, coveredSave a aggs := by
        rw [hcomp] at h
        exact h
      exact fun a ha => coveredSave_mono hsub (h' a ha)

theorem aggregateHistory_prefix (tags : List Tag) (store : List Reading)
    (date : Millis) (aggs : List AggRow) :
    ∃ new, (aggregateHistory tags store date aggs).1 = aggs ++ new ∧
      ∀ r ∈ new, r.date = date := by
  unfold aggregateHistory
  cases hcomp : computeAggRows store date (startOfDay date) (startOfDay (date + dayMs)) tags with
  | error e => exact ⟨[], by simp, by simp⟩
  | ok rows =>
      obtain ⟨new, hnew, hmem⟩ := saveAllAggRows_prefix (rows.filter hasAnyValue) aggs
      exact ⟨new, hnew, fun r hr =>
        computeAggRows_date hcomp r (List.mem_of_mem_filter (hmem r hr))⟩

theorem aggregateHistory_subset (tags : List Tag) (store : List Reading)
    (date : Millis) (aggs : List AggRow) :
    aggs ⊆ (aggregateHistory tags store date aggs).1 := by
  obtain ⟨new, hnew, _⟩ := aggregateHistory_prefix tags store date aggs
  rw [hnew]
  exact List.subset_append_left _ _

theorem aggregateHistory_noop {tags : List Tag} {store : List Reading} {date : Millis}
    {aggs : List AggRow} (h : dayDone tags store date aggs) :
    (aggregateHistory tags store date aggs).1 = aggs := by
  unfold dayDone at h
  unfold aggregateHistory
  cases hcomp : computeAggRows store date (startOfDay date) (startOfDay (date + dayMs)) tags with
  | error e => rfl
  | ok rows =>
      rw [hcomp] at h
      exact saveAllAggRows_noop h

theorem aggregateHistory_establishes (tags : List Tag) (store : List Reading)
    (date : Millis) (aggs : List AggRow) :
    dayDone tags store date (aggregateHistory tags store date aggs).1 := by
  unfold dayDone aggregateHistory
  cases hcomp : computeAggRows store date (startOfDay date) (startOfDay (date + dayMs)) tags with
  | error e => trivial
  | ok rows => exact saveAllAggRows_covers (rows.filter hasAnyValue) aggs

theorem mem_datesWithDataAux (history : List Reading) (acc : List Millis) (d : Millis) :
    d ∈ datesWithDataAux history acc ↔
      d ∈ acc ∨ ∃ r ∈ history, startOfDay r.datetime = d := by
  induction history generalizing acc with
  | nil => simp [datesWithDataAux]
  | cons r rest ih =>
      unfold datesWithDataAux
      by_cases hc : acc.contains (startOfDay r.datetime) = true
      · rw [if_pos hc, ih]
        simp only [List.contains_eq_any_beq, List.any_eq_true, beq_iff_eq] at hc
        obtain ⟨x, hx, hxd⟩ := hc
        subst hxd
        constructor
        · rintro (h | ⟨r', hr', hd⟩)
          · exact Or.inl h
          · exact Or.inr ⟨r', List.mem_cons_of_mem _ hr', hd⟩
        · rintro (h | ⟨r', hr', hd⟩)
          · exact Or.inl h
          · rcases List.mem_cons.mp hr' with h1 | h1
            · subst h1
              exact Or.inl (hd ▸ hx)
            · exact Or.inr ⟨r', h1, hd⟩
      · rw [if_neg hc, ih]
        constructor
        · rintro (h | ⟨r', hr', hd⟩)
          · rcases List.mem_append.mp h with h1 | h1
            · exact Or.inl h1
            · simp at h1
              exact Or.inr ⟨r, List.mem_cons_self _ _, h1.symm⟩
          · exact Or.inr ⟨r', List.mem_cons_of_mem _ hr', hd⟩
        · rintro (h | ⟨r', hr', hd⟩)
          · exact Or.inl (List.mem_append.mpr (Or.inl h))
          · rcases List.mem_cons.mp hr' with h1 | h1
            · subst h1
              exact Or.inl (List.mem_append.mpr (Or.inr (by simp [hd])))
            · exact Or.inr ⟨r', h1, hd⟩

theorem datesWithDataAux_nodup (history : List Reading) (acc : List Millis)
    (hacc : acc.Nodup) : (datesWithDataAux history acc).Nodup := by
  induction history generalizing acc with
  | nil => exact hacc
  | cons r rest ih =>
      unfold datesWithDataAux
      by_cases hc : acc.contains (startOfDay r.datetime)
      · simp only [hc, if_true]
        exact ih acc hacc
      · simp only [hc, if_false]
        refine ih _ ?_
        simp at hc
        simp [List.nodup_append, hacc, hc]

theorem datesWithData_nodup (history : List Reading) : (datesWithData history).Nodup :=
  datesWithDataAux_nodup history [] List.nodup_nil

theorem runDays_prefix (tags : List Tag) (store : List Reading) (days : List Millis)
    (aggs : List AggRow) :
    ∃ new, (runDays tags store days aggs).1 = aggs ++ new ∧ ∀ r ∈ new, r.date ∈ days := by
  induction days generalizing aggs with
  | nil => exact ⟨[], by simp [runDays], by simp⟩
  | cons d rest ih =>
      by_cases hg : isDateAggregated none d aggs = true
      · have hres : (runDays tags store (d :: rest) aggs).1
            = (runDays tags store rest (aggregateHistory tags store d aggs).1).1 := by
          simp only [runDays, hg, if_true]
        obtain ⟨n1, h1, hm1⟩ := aggregateHistory_prefix tags store d aggs
        obtain ⟨n2, h2, hm2⟩ := ih ((aggregateHistory tags store d aggs).1)
        refine ⟨n1 ++ n2, ?_, ?_⟩
        · rw [hres, h2, h1, List.append_assoc]
        · intro r hr
          rcases List.mem_append.mp hr with h | h
          · rw [hm1 r h]
            exact List.mem_cons_self d rest
          · exact List.mem_cons_of_mem _ (hm2 r h)
      · have hres : (runDays tags store (d :: rest) aggs).1
            = (runDays tags store rest aggs).1 := by
          rw [runDays]
          rw [if_neg hg]
        obtain ⟨n2, h2, hm2⟩ := ih aggs
        exact ⟨n2, by rw [hres, h2], fun r hr => List.mem_cons_of_mem _ (hm2 r hr)⟩

theorem runDays_subset (tags : List Tag) (store : List Reading) (days : List Millis)
    (aggs : List AggRow) : aggs ⊆ (runDays tags store days aggs).1 := by
  obtain ⟨new, hnew, _⟩ := runDays_prefix tags store days aggs
  rw [hnew]
  exact List.subset_append_left _ _

theorem runDays_establishes (tags : List Tag) (store : List Reading) :
    ∀ days : List Millis, days.Nodup → ∀ aggs : List AggRow, ∀ d ∈ days,
      isDateAggregated none d (runDays tags store days aggs).1 = true →
      dayDone tags store d (runDays tags store days aggs).1 := by
  intro days
  induction days with
  | nil => simp
  | cons d0 rest ih =>
      intro hnd aggs d hd hgate
      have hnd' : rest.Nodup := (List.nodup_cons.mp hnd).2
      have hd0nr : d0 ∉ rest := (List.nodup_cons.mp hnd).1
      by_cases hg : isDateAggregated none d0 aggs = true
      · have hres : (runDays tags store (d0 :: rest) aggs).1
            = (runDays tags store rest (aggregateHistory tags store d0 aggs).1).1 := by
          simp only [runDays, hg, if_true]
        rcases List.mem_cons.mp hd with h | h
        · subst h
          rw [hres]
          exact dayDone_mono (runDays_subset tags store rest _)
            (aggregateHistory_establishes tags store d aggs)
        · rw [hres] at hgate ⊢
          exact ih hnd' _ d h hgate
      · have hres : (runDays tags store (d0 :: rest) aggs).1
            = (runDays tags store rest aggs).1 := by
          rw [runDays]
          rw [if_neg hg]
        rcases List.mem_cons.mp hd with h | h
        · subst h
          rw [hres] at hgate
          obtain ⟨new, hnew, hdates⟩ := runDays_prefix tags store rest aggs
          rcases (isDateAggregated_none_iff _ _).mp hgate with ⟨r, hr, hrd⟩
          rw [hnew] at hr
          rcases List.mem_append.mp hr with h1 | h1
          · exact absurd ((isDateAggregated_none_iff _ _).mpr ⟨r, h1, hrd⟩) hg
          · exact absurd (hrd ▸ hdates r h1) hd0nr
        · rw [hres] at hgate ⊢
          exact ih hnd' _ d h hgate

theorem runDays_noop (tags : List Tag) (store : List Reading) :
    ∀ days : List Millis, ∀ aggs : List AggRow,
      (∀ d ∈ days, isDateAggregated none d aggs = true → dayDone tags store d aggs) →
      (runDays tags store days aggs).1 = aggs := by
  intro days
  induction days with
  | nil => intro aggs _; rfl
  | cons d0 rest ih =>
      intro aggs h
      by_cases hg : isDateAggregated none d0 aggs = true
      · have hnoop : (aggregateHistory tags store d0 aggs).1 = aggs :=
          aggregateHistory_noop (h d0 (List.mem_cons_self _ _) hg)
        have hres : (runDays tags store (d0 :: rest) aggs).1
            = (runDays tags store rest (aggregateHistory tags store d0 aggs).1).1 := by
          simp only [runDays, hg, if_true]
        rw [hres, hnoop]
        exact ih aggs (fun d hd => h d (List.mem_cons_of_mem _ hd))
      · have hres : (runDays tags store (d0 :: rest) aggs).1
            = (runDays tags store rest aggs).1 := by
          rw [runDays]
          rw [if_neg hg]
        rw [hres]
        exact ih aggs (fun d hd => h d (List.mem_cons_of_mem _ hd))

/-- Running the Aggregation Task a second time from the state the first run
produced changes nothing in the aggregate store. -/
theorem aggregateTaskRun_idempotent_state (now : Millis) (tags : List Tag)
    (store : List Reading) (aggs : List AggRow) :
    (aggregateTaskRun now tags store (aggregateTaskRun now tags store aggs).1).1
      = (aggregateTaskRun now tags store aggs).1 := by
  unfold aggregateTaskRun
  apply runDays_noop
  intro d hd hgate
  exact runDays_establishes tags store _ (datesWithData_nodup _) aggs d hd hgate

theorem mem_getHistory_dateEnd (e : Millis) (tags : List Tag) (store : List Reading)
    (r : Reading) :
    r ∈ getHistory none (some e) none none tags store ↔ r ∈ store ∧ r.datetime < e := by
  unfold getHistory
  simp [mem_sortDescBy, List.mem_filter]

/-! ## Claim theorems -/

/-- C2: for any fixed prior readings (and tags and prior aggregate rows),
running the Aggregation Task's `run()` twice in succession leaves the
aggregate store with the same number of rows as running it once: the second
run creates no additional or duplicate rows. -/
theorem aggregateTaskRun_idempotent (now : Millis) (tags : List Tag)
    (store : List Reading) (aggs : List AggRow) :
    ((aggregateTaskRun now tags store (aggregateTaskRun now tags store aggs).1).1).length
      = ((aggregateTaskRun now tags store aggs).1).length := by
  rw [aggregateTaskRun_idempotent_state]

/-- C3: the Aggregation Task never treats today as a candidate day and never
produces an aggregate row dated today or later: every candidate day, and the
date of every row `run()` adds, is strictly before the start of the current
calendar day. -/
theorem aggregateTaskRun_never_today (now : Millis) (tags : List Tag)
    (store : List Reading) (aggs : List AggRow) :
    (∀ d ∈ datesWithData (getHistory none (some (startOfDay now)) none none tags store),
        d < startOfDay now) ∧
    ∀ r ∈ (aggregateTaskRun now tags store aggs).1,
      r ∈ aggs ∨ r.date < startOfDay now := by
  have hdays : ∀ d ∈ datesWithData (getHistory none (some (startOfDay now)) none none tags store),
      d < startOfDay now := by
    intro d hd
    rw [datesWithData, mem_datesWithDataAux] at hd
    rcases hd with h | ⟨r, hr, hrd⟩
    · simp at h
    · have hlt : r.datetime < startOfDay now := ((mem_getHistory_dateEnd _ _ _ _).mp hr).2
      calc d = startOfDay r.datetime := hrd.symm
        _ ≤ r.datetime := startOfDay_le _
        _ < startOfDay now := hlt
  refine ⟨hdays, ?_⟩
  intro r hr
  simp only [aggregateTaskRun] at hr
  obtain ⟨new, hnew, hdates⟩ := runDays_prefix tags store
    (datesWithData (getHistory none (some (startOfDay now)) none none tags store)) aggs
  rw [hnew] at hr
  rcases List.mem_append.mp hr with h | h
  · exact Or.inl h
  · exact Or.inr (hdays _ (hdates r h))

theorem aggregateTaskRun_never_today_witness :
    aggRowB ∈ ([aggRowA] : List AggRow) ∨ aggRowB.date < startOfDay sampleNow :=
  (aggregateTaskRun_never_today sampleNow [tagA, tagB] [readingA, readingB] [aggRowA]).2
    aggRowB (by decide)

/-- C1 (evaluation at the failing input): with one tag, one reading on
day 1 and an empty aggregate store, `run()` at day 2 creates no aggregate
row at all and resolves with `true` — the source's gate
`if (await isDateAggregated({ date }))` invokes `aggregateHistory` only for
days that ALREADY have an aggregate row, the inverse of the claim, of the
code's own comment ("If not, aggregate it.") and of the repository's test
expecting such a day to be aggregated. -/
theorem aggregateTaskRun_gate_inverted_failing_input :
    aggregateTaskRun sampleNow [tagA] [readingA] [] = ([], true) := by decide

/-- C4: persisting an aggregate row for a `(tag_id, date)` pair that already
has a row always fails with the conflict error (the `isDateAggregated` check
runs at persist time inside `saveAggregatedHistory`), and the store is left
unchanged by the failing save. -/
theorem saveAggregatedHistory_conflict (aggs : List AggRow) (a r : AggRow)
    (h0 : a.tag_id ≠ 0) (hr : r ∈ aggs) (htag : r.tag_id = a.tag_id)
    (hdate : r.date = a.date) :
    saveAggregatedHistory a aggs
        = .error "Aggregated data already exists for this tag and date."
      ∧ (saveAllAggRows [a] aggs).1 = aggs := by
  have hagg : isDateAggregated (some a.tag_id) a.date aggs = true :=
    (isDateAggregated_some_iff _ h0 _ _).mpr ⟨r, hr, hdate, htag⟩
  have herr : saveAggregatedHistory a aggs
      = .error "Aggregated data already exists for this tag and date." := by
    unfold saveAggregatedHistory
    rw [if_neg h0, if_pos hagg]
  exact ⟨herr, by simp only [saveAllAggRows, herr]⟩

theorem saveAggregatedHistory_conflict_witness :
    saveAggregatedHistory aggRowA [aggRowA]
        = .error "Aggregated data already exists for this tag and date."
      ∧ (saveAllAggRows [aggRowA] [aggRowA]).1 = [aggRowA] :=
  saveAggregatedHistory_conflict [aggRowA] aggRowA aggRowA (by decide) (by decide) rfl rfl

/-- C5 (counterexample): tags 1 and 2 both have readings on day 1 and an
aggregate row exists for `(tag 1, day 1)`.  During `run()`, the save for
tag 1 hits the conflict; the sibling unit `(tag 2, day 1)` is still
persisted (`aggRowB` is added), but the run's flag is `false`: the combined
promise rejects, so the conflict DOES propagate out of `run()` to its
caller, contrary to the claim. -/
theorem aggregateTaskRun_conflict_propagates :
    aggregateTaskRun sampleNow [tagA, tagB] [readingA, readingB] [aggRowA]
      = ([aggRowA, aggRowB], false) := by decide

/-- C5 (amended): within the fan-out that persists a run's computed rows, a
unit whose save fails leaves the store untouched and does not prevent the
remaining units from being processed from that same store — but the failure
surfaces in the combined result (the `false` flag, i.e. the rejection that
reaches `run()`'s caller). -/
theorem saveAll_failure_isolated (a : AggRow) (rest aggs : List AggRow) (msg : String)
    (h : saveAggregatedHistory a aggs = .error msg) :
    saveAllAggRows (a :: rest) aggs = ((saveAllAggRows rest aggs).1, false) := by
  simp only [saveAllAggRows, h]

theorem saveAll_failure_isolated_witness :
    saveAllAggRows [aggRowA] [aggRowA] = ((saveAllAggRows [] [aggRowA]).1, false) :=
  saveAll_failure_isolated aggRowA [] [aggRowA]
    "Aggregated data already exists for this tag and date." rfl

/-- C10: every row returned by `getAggregatedHistory` carries the stored
`temperature_min` in both fields of its `temperature` object and
`humidity_min` in both fields of its `humidity` object; the stored
`temperature_max`/`humidity_max` values do not appear in the projection. -/
theorem getAggregatedHistory_uses_min_for_max (tag_id : Option Nat) (date : Option Millis)
    (limit : Option Nat) (aggs : List AggRow) (f : FormattedAggRow)
    (hf : f ∈ getAggregatedHistory tag_id date limit aggs) :
    ∃ r ∈ aggs, f.temperature.min = r.temperature_min
      ∧ f.temperature.max = r.temperature_min
      ∧ f.humidity.min = r.humidity_min
      ∧ f.humidity.max = r.humidity_min := by
  unfold getAggregatedHistory at hf
  rcases List.mem_map.mp hf with ⟨r, hr, hfr⟩
  have hrs : r ∈ aggs := by
    simp only [getAggregatedHistoryRaw] at hr
    have hsorted : r ∈ sortDescBy (fun x => x.date) (aggs.filter (aggMatches tag_id date)) := by
      rcases limit with _ | l
      · exact hr
      · by_cases hl : l = 0
        · simpa [hl] using hr
        · exact List.take_subset _ _ (by simpa [hl] using hr)
    rw [mem_sortDescBy] at hsorted
    exact (List.mem_filter.mp hsorted).1
  subst hfr
  exact ⟨r, hrs, rfl, rfl, rfl, rfl⟩

theorem getAggregatedHistory_uses_min_for_max_witness :
    ∃ r ∈ ([aggRowA] : List AggRow),
      (formatAggRow aggRowA).temperature.min = r.temperature_min
      ∧ (formatAggRow aggRowA).temperature.max = r.temperature_min
      ∧ (formatAggRow aggRowA).humidity.min = r.humidity_min
      ∧ (formatAggRow aggRowA).humidity.max = r.humidity_min :=
  getAggregatedHistory_uses_min_for_max none none none [aggRowA] (formatAggRow aggRowA)
    (by decide)

/-- C9: the Retention Task deletes exactly the readings strictly older than
`now - 7 days`, keeps the rest, returns `true` even when nothing is deleted,
and the underlying `cleanOldHistory` rejects a cutoff that is not a `Date`
object or lies in the future. -/
theorem cleanTask_spec (now : Millis) (store : List Reading) (c : Millis) :
    (cleanTaskRun now store).1
        = store.filter (fun r => ¬ r.datetime < now - DAYS_TO_CLEAN * dayMs)
      ∧ (cleanTaskRun now store).2 = true
      ∧ cleanOldHistory none now store
          = .error "Clean older than date isn't a date object."
      ∧ (now < c →
          cleanOldHistory (some c) now store = .error "Date cannot be in the future.") := by
  have hle : ¬ now < now - DAYS_TO_CLEAN * dayMs := by
    show ¬ now < now - (7 : Int) * 86400000
    rw [not_lt]
    linarith
  have hrun : cleanTaskRun now store
      = (store.filter (fun r => ¬ r.datetime < now - DAYS_TO_CLEAN * dayMs), true) := by
    simp only [cleanTaskRun, cleanOldHistory]
    rw [if_neg hle]
  refine ⟨by rw [hrun], by rw [hrun], rfl, ?_⟩
  intro hc
  simp only [cleanOldHistory]
  rw [if_pos hc]

theorem cleanTask_spec_witness :
    ((cleanTaskRun (20 * dayMs) [oldReading, recentReading]).1
        = [oldReading, recentReading].filter
            (fun r => ¬ r.datetime < 20 * dayMs - DAYS_TO_CLEAN * dayMs)
      ∧ (cleanTaskRun (20 * dayMs) [oldReading, recentReading]).2 = true
      ∧ cleanOldHistory none (20 * dayMs) [oldReading, recentReading]
          = .error "Clean older than date isn't a date object."
      ∧ cleanOldHistory (some (21 * dayMs)) (20 * dayMs) [oldReading, recentReading]
          = .error "Date cannot be in the future.")
      ∧ (cleanTaskRun (20 * dayMs) [oldReading, recentReading]).1 = [recentReading] := by
  have h := cleanTask_spec (20 * dayMs) [oldReading, recentReading] (21 * dayMs)
  exact ⟨⟨h.1, h.2.1, h.2.2.1, h.2.2.2 (by decide)⟩, by decide⟩

theorem getHistory_tag_limit3 (tags : List Tag) (store : List Reading) (t : Nat)
    (ht : t ≠ 0) (htag : tagExists tags t = true) :
    getHistory none none (some t) (some 3) tags store
      = (sortDescBy (fun r => r.datetime) (store.filter (fun r => r.tag_id == t))).take 3 := by
  unfold getHistory
  simp only [Bool.true_and]
  simp only [if_neg ht]
  have hfil : store.filter (fun r => r.tag_id == t && tagExists tags r.tag_id)
      = store.filter (fun r => r.tag_id == t) := by
    apply List.filter_congr
    intro r _
    by_cases hid : r.tag_id = t
    · simp [hid, htag]
    · simp [hid]
  rw [hfil]
  rfl

/-- C8 (evaluation at the failing input): a reading saved with voltage 2.4 V
(below the 2.5 V default threshold of the repository's own test and of the
documentation, and with `battery_low: true` passed by the caller) is stored
with `battery_low = false`, because the code derives the flag from the
hard-coded comparison `voltage < 2` rather than the configurable ~2.5 V
threshold. -/
theorem saveHistory_battery_threshold_failing_input :
    saveHistory lowVoltageInput [tagA] []
        = .ok ([tagA],
            [{ tag_id := 1, datetime := dayMs + 100, temperature := 20, humidity := 55,
               battery_low := false }], 1)
      ∧ (12 / 5 : ℚ) < 5 / 2 := by
  constructor
  · have h : saveHistory lowVoltageInput [tagA] []
        = .ok ([tagA], [savedReading 1 lowVoltageInput], 1) := by
      unfold saveHistory
      rw [if_neg (by simp [lowVoltageInput]), if_neg (by simp [lowVoltageInput]),
        if_neg (by simp [lowVoltageInput])]
      rfl
    rw [h]
    have hrow : savedReading 1 lowVoltageInput
        = { tag_id := 1, datetime := dayMs + 100, temperature := 20, humidity := 55,
            battery_low := false } := by
      unfold savedReading lowVoltageInput
      norm_num [round2]
    rw [hrow]
  · norm_num

/-- C7: saving a valid reading (known tag, valid datetime) succeeds, and
querying the history for that tag returns a row whose datetime is the saved
one and whose temperature and humidity are exactly the saved inputs rounded
to 2 decimal places. -/
theorem saveHistory_roundtrip (tags : List Tag) (store : List Reading)
    (input : HistoryInput) (dt : Millis)
    (h0 : input.tag_id ≠ 0) (hdt : input.datetime = some dt)
    (htag : tagExists tags input.tag_id = true) :
    ∃ tags2 store2 id, saveHistory input tags store = .ok (tags2, store2, id) ∧
      ∃ r ∈ getHistory none none (some input.tag_id) none tags2 store2,
        r.datetime = dt ∧ r.temperature = round2 input.temperature
          ∧ r.humidity = round2 input.humidity := by
  have hne : ¬ (input.tag_id = 0 ∧ input.ruuvi_id = "") := fun h => h0 h.1
  have hdts : ¬ input.datetime.isNone = true := by simp [hdt]
  have hsave : saveHistory input tags store
      = .ok (tags, store ++ [savedReading input.tag_id input], store.length + 1) := by
    unfold saveHistory
    rw [if_neg hne, if_neg hdts, if_neg h0]
    rfl
  refine ⟨tags, store ++ [savedReading input.tag_id input], store.length + 1, hsave,
    savedReading input.tag_id input, ?_, by simp [savedReading, hdt], rfl, rfl⟩
  unfold getHistory
  rw [mem_sortDescBy, List.mem_filter]
  refine ⟨by simp, ?_⟩
  have hid : (savedReading input.tag_id input).tag_id = input.tag_id := rfl
  simp [hid, h0, htag]

theorem saveHistory_roundtrip_witness :
    ∃ tags2 store2 id, saveHistory inputA [tagA] [] = .ok (tags2, store2, id) ∧
      ∃ r ∈ getHistory none none (some inputA.tag_id) none tags2 store2,
        r.datetime = dayMs + 100 ∧ r.temperature = round2 inputA.temperature
          ∧ r.humidity = round2 inputA.humidity :=
  saveHistory_roundtrip [tagA] [] inputA (dayMs + 100) (by decide) rfl (by decide)

/-- C6: for a valid tag (nonzero id, present in the tag table) and a valid
sensor name, the trend is `0` whenever the store holds fewer than 3 readings
for the tag; otherwise, with `(a, b, c)` the newest, middle and oldest of
the 3 most recent sensor values each rounded to 1 decimal, it is `1`
exactly when `a > b > c`, `-1` exactly when `a < b < c`, and `0` for every
other pattern. -/
theorem getSensorTrendByTag_spec (tags : List Tag) (store : List Reading)
    (t : Nat) (sensor : String) (ht : t ≠ 0) (hs : isValidSensorName sensor = true)
    (htag : tagExists tags t = true) :
    ((store.filter (fun r => r.tag_id == t)).length < 3 →
        getSensorTrendByTag t sensor tags store = .ok 0)
    ∧ ∀ a b c rest,
        (sortDescBy (fun r => r.datetime) (store.filter (fun r => r.tag_id == t))).map
            (fun r => round1 (sensorValue sensor r)) = a :: b :: c :: rest →
        getSensorTrendByTag t sensor tags store
          = .ok (if a > b ∧ b > c then 1 else if a < b ∧ b < c then -1 else 0) := by
  have hne : sensor ≠ "" := by
    intro h
    rw [h] at hs
    simp [isValidSensorName, SENSORS] at hs
  have hred : getSensorTrendByTag t sensor tags store
      = (if ((sortDescBy (fun r => r.datetime) (store.filter (fun r => r.tag_id == t))).take 3).length < 3
         then Except.ok 0
         else
           match ((sortDescBy (fun r => r.datetime) (store.filter (fun r => r.tag_id == t))).take 3).map
               (fun r => round1 (sensorValue sensor r)) with
           | first :: second :: third :: _ =>
               if first > second ∧ second > third then Except.ok 1
               else if first < second ∧ second < third then Except.ok (-1)
               else Except.ok 0
           | _ => Except.ok 0) := by
    unfold getSensorTrendByTag
    rw [if_neg ht, if_neg hne, if_neg (by simp [hs]),
      getHistory_tag_limit3 tags store t ht htag]
  constructor
  · intro hlen
    rw [hred, if_pos (by rw [List.length_take, length_sortDescBy]; omega)]
  · intro a b c rest hmap
    have hlen3 : (store.filter (fun r => r.tag_id == t)).length = rest.length + 3 := by
      have hc := congrArg List.length hmap
      rw [List.length_map, length_sortDescBy] at hc
      simp at hc
      omega
    have hvals : ((sortDescBy (fun r => r.datetime)
          (store.filter (fun r => r.tag_id == t))).take 3).map
        (fun r => round1 (sensorValue sensor r)) = [a, b, c] := by
      rw [List.map_take, hmap]
      rfl
    rw [hred, if_neg (by rw [List.length_take, length_sortDescBy]; omega), hvals]
    show (if a > b ∧ b > c then (Except.ok 1 : Except String Int)
          else if a < b ∧ b < c then Except.ok (-1) else Except.ok 0)
        = Except.ok (if a > b ∧ b > c then 1 else if a < b ∧ b < c then -1 else 0)
    split_ifs <;> rfl

theorem getSensorTrendByTag_spec_witness :
    getSensorTrendByTag 1 "temperature" [tagA] [trendR1, trendR2, trendR3]
      = .ok (if (25 : ℚ) > 20 ∧ (20 : ℚ) > 15 then 1
             else if (25 : ℚ) < 20 ∧ (20 : ℚ) < 15 then -1 else 0) := by
  have hsort : sortDescBy (fun r => r.datetime)
      ([trendR1, trendR2, trendR3].filter (fun r => r.tag_id == 1))
      = [trendR1, trendR2, trendR3] := by decide
  have hmap : (sortDescBy (fun r => r.datetime)
        ([trendR1, trendR2, trendR3].filter (fun r => r.tag_id == 1))).map
      (fun r => round1 (sensorValue "temperature" r)) = [25, 20, 15] := by
    rw [hsort]
    show [round1 (sensorValue "temperature" trendR1),
          round1 (sensorValue "temperature" trendR2),
          round1 (sensorValue "temperature" trendR3)] = [25, 20, 15]
    norm_num [sensorValue, trendR1, trendR2, trendR3, round1, Int.floor_eq_iff]
  exact (getSensorTrendByTag_spec [tagA] [trendR1, trendR2, trendR3] 1 "temperature"
    (by decide) (by decide) (by decide)).2 25 20 15 [] hmap
